import Mathlib

/-!
Shallow embedding of the card-game rules engine found in `src/index.tsx`
(the second, authoritative snapshot in that file, starting around line 1353:
types at 1353-1438, utilities at 1507-1642, AI at 1646-1865, state machine at
2409-2837).  JavaScript numbers are modelled as `Nat`/`Int`, arrays as `List`,
objects keyed by player id as total functions `Nat → Int` (a missing key reads
as `0`, matching the `(x || 0)` idiom of the source), and `null`/`undefined`
as `Option`.  Presentation-only behaviour (audio, toasts, timers, rendering)
is dropped; where a dropped side effect schedules a state change that matters
(the `setTimeout(() => handleDraw(), 0)` in `nextTurn`) the schedule is
surfaced as an explicit `Bool` component of the result.
-/

namespace Gandy

/-- Source: `type Suit = "spades" | "hearts" | "clubs" | "diamonds" | "joker"` -/
inductive Suit where
  | spades | hearts | clubs | diamonds | joker
deriving DecidableEq, Repr

/-- Source: `interface Card { id: string; suit: Suit; rank: Rank; display: string }`.
Ranks are 3..15 ordinary (11=J, 12=Q, 13=K, 14=A, 15=2), 16/17 jokers. -/
structure Card where
  id : String
  suit : Suit
  rank : Nat
  display : String
deriving DecidableEq, Repr

/-- Source: `type HandType = "SINGLE" | "PAIR" | "STRAIGHT" | "BOMB" | "KING_BOMB" | "INVALID"` -/
inductive HandType where
  | SINGLE | PAIR | STRAIGHT | BOMB | KING_BOMB | INVALID
deriving DecidableEq, Repr

/-- The non-null return value of `analyzeHand`:
`{ type: HandType; primaryRank: number; length: number; bombLevel: number }`. -/
structure Analysis where
  type : HandType
  primaryRank : Nat
  length : Nat
  bombLevel : Nat
deriving DecidableEq, Repr

/-- Source: `interface PlayedHand` (line 1384). -/
structure PlayedHand where
  playerId : Nat
  cards : List Card
  type : HandType
  primaryRank : Nat
  length : Nat
  bombLevel : Nat
deriving DecidableEq, Repr

/-- Source: `lastAction: "PLAY" | "PASS" | null` -/
inductive PAction where
  | PLAY | PASS
deriving DecidableEq, Repr

/-- Source: `role: "host" | "guest" | "bot"` -/
inductive Role where
  | host | guest | bot
deriving DecidableEq, Repr

/-- Source: `interface Player` (line 1369). -/
structure Player where
  id : Nat
  name : String
  isAi : Bool
  hand : List Card
  cardsLeft : Nat
  hasPlayed : Bool
  lastAction : Option PAction
  role : Role
  color : String
  peerId : Option String := none
deriving DecidableEq, Repr

/-- Source: `status` field of `GameState` (line 1394). -/
inductive Status where
  | lobby | dealing | playing | celebrating | scoring | waiting
deriving DecidableEq, Repr

/-- Source: `interface GameState` (line 1393).  `scores` and the `gameHistory` entries
are JS objects keyed by player id; they are modelled as total functions
`Nat → Int` where an absent key reads as 0 (the source only ever reads them
through `(scores[id] || 0)`).  `lastWinnerIndex` is an `Int` because
`handleDraw` stores `-1` there as a "random dealer" signal. -/
structure GameState where
  status : Status
  players : List Player
  deck : List Card
  tablePile : List PlayedHand
  currentPlayerIndex : Nat
  lastWinnerIndex : Int
  dealerId : Nat
  passesInARow : Nat
  roundsFinishedAfterDeckEmpty : Nat
  bombCount : Nat
  scores : Nat → Int
  gameHistory : List (Nat → Int)
  roomId : Option String := none
  isHost : Bool := true
  myPlayerId : Nat := 0

/-- Source: `const SUITS: Suit[] = ["spades", "hearts", "clubs", "diamonds"]` (line 1421). -/
def SUITS : List Suit := [.spades, .hearts, .clubs, .diamonds]

/-- Source: `const RANKS = [3, ..., 15]` (line 1422). -/
def RANKS : List Nat := [3, 4, 5, 6, 7, 8, 9, 10, 11, 12, 13, 14, 15]

/-- Display string for a rank, as computed inside `generateDeck` (lines 1515-1520). -/
def rankDisplay (rank : Nat) : String :=
  if rank = 11 then "J"
  else if rank = 12 then "Q"
  else if rank = 13 then "K"
  else if rank = 14 then "A"
  else if rank = 15 then "2"
  else toString rank

/-- Source: `generateDeck` (lines 1509-1529): 4 suits x 13 ranks plus the two jokers,
with sequential string ids `c-0`..`c-53`. -/
def generateDeck : List Card :=
  let ordinary :=
    (SUITS.enum.map fun (si, suit) =>
      (RANKS.enum.map fun (ri, rank) =>
        Card.mk (String.append "c-" (toString (13 * si + ri))) suit rank (rankDisplay rank))).flatten
  ordinary ++
    [Card.mk "c-52" .joker 16 "小王", Card.mk "c-53" .joker 17 "大王"]

/-- Source: `sortCards` (line 1535): stable sort by ascending rank
(`[...cards].sort((a, b) => a.rank - b.rank)`; JS `Array.prototype.sort` is
stable, and insertion sort realizes exactly that specification while staying
kernel-computable). -/
def sortCards (cards : List Card) : List Card :=
  cards.insertionSort (fun a b => a.rank ≤ b.rank)

/-- Source: `canBeat(move, last)` (lines 1614-1642), transcribed branch for branch. -/
def canBeat (move : Analysis) (last : PlayedHand) : Bool :=
  if move.type = .KING_BOMB then true
  else if last.type = .KING_BOMB then false
  else if move.type = .BOMB then
    if last.type ≠ .BOMB then true
    else if last.bombLevel < move.bombLevel then true
    else if move.bombLevel < last.bombLevel then false
    else decide (last.primaryRank < move.primaryRank)
  else if last.type = .BOMB then false
  else if move.type ≠ last.type then false
  else if move.length ≠ last.length then false
  else if move.type = .SINGLE ∨ move.type = .PAIR then
    if move.primaryRank = last.primaryRank + 1 then true
    else if move.primaryRank = 15 ∧ last.primaryRank < 15 then true
    else false
  else if move.type = .STRAIGHT then
    decide (move.primaryRank = last.primaryRank + 1)
  else false

/-- Pointwise update of a JS object modelled as a total function:
`obj[k] = v`. -/
def fset (f : Nat → Int) (k : Nat) (v : Int) : Nat → Int :=
  fun n => if n = k then v else f n

/-- The per-player penalty base of `calculateScores` (lines 2532-2534):
`let base = p.cardsLeft; if (base === 1) base = 0;
if (base === 5 && !p.hasPlayed) base = base * 2;`. -/
def scoreBase (p : Player) : Nat :=
  let base := p.cardsLeft
  let base := if base = 1 then 0 else base
  let base := if base = 5 ∧ ¬ p.hasPlayed then base * 2 else base
  base

/-- The `players.forEach` loop of `calculateScores` (lines 2529-2542),
threading `totalWin`, `currentScores` and `roundDeltas` in order. -/
def scoreLoop (winnerIdx : Nat) (multiplier : Int) :
    List Player → Int → (Nat → Int) → (Nat → Int) → Int × (Nat → Int) × (Nat → Int)
  | [], totalWin, scores, deltas => (totalWin, scores, deltas)
  | p :: rest, totalWin, scores, deltas =>
      let change : Int :=
        if p.id ≠ winnerIdx then -((scoreBase p : Int) * multiplier) else 0
      let totalWin' :=
        if p.id ≠ winnerIdx then totalWin + (scoreBase p : Int) * multiplier else totalWin
      scoreLoop winnerIdx multiplier rest totalWin'
        (fset scores p.id (scores p.id + change)) (fset deltas p.id change)

/-- Source: `calculateScores` (lines 2523-2549).  Returns `(currentScores, roundDeltas)`.
After the loop the winner's entries are assigned:
`roundDeltas[winnerIdx] = totalWin; currentScores[winnerIdx] += totalWin`. -/
def calculateScores (winnerIdx : Nat) (players : List Player) (bombs : Nat)
    (oldScores : Nat → Int) : (Nat → Int) × (Nat → Int) :=
  let multiplier : Int := 2 ^ bombs
  let r := scoreLoop winnerIdx multiplier players 0 oldScores (fun _ => 0)
  let totalWin := r.1
  let currentScores := r.2.1
  let roundDeltas := r.2.2
  (fset currentScores winnerIdx (currentScores winnerIdx + totalWin),
   fset roundDeltas winnerIdx totalWin)

/-! ## Hand classifier (`analyzeHand`, lines 1540-1612) -/

/-- Stand-in for the JS `undefined` that `sorted[0]` / `normals[0]` would
yield on an empty array; every branch that reads a head is guarded by a
non-emptiness check in the source, so this default is never observable. -/
def undefinedCard : Card := ⟨"", .joker, 0, ""⟩

/-- Source: `const jokers = sorted.filter(c => c.suit === "joker")` (line 1544). -/
def jokersOf (cards : List Card) : List Card :=
  (sortCards cards).filter (fun c => c.suit = Suit.joker)

/-- Source: `const normals = sorted.filter(c => c.suit !== "joker")` (line 1545). -/
def normalsOf (cards : List Card) : List Card :=
  (sortCards cards).filter (fun c => ¬ (c.suit = Suit.joker))

/-- Source: `const uniqueRanks = Array.from(new Set(normals.map(c => c.rank)))`
(line 1551).  JS `Set` iterates in first-insertion order while `List.dedup`
keeps last occurrences, but the source only ever consumes `uniqueRanks.length`
(the number of distinct ranks), which both agree on. -/
def uniqueRanksOf (cards : List Card) : List Nat :=
  ((normalsOf cards).map Card.rank).dedup

/-- The wrap run `[14, 15, 3, 4, ...]` pushed at line 1574 for hand size
`len` (written `[A, 2, 3, ...]` in the spec; 15 is the card "2"). -/
def wrapSeqA (len : Nat) : List Nat :=
  [14, 15] ++ (List.range (len - 2)).map (· + 3)

/-- The wrap run `[15, 3, 4, ...]` pushed at line 1575. -/
def wrapSeqTwo (len : Nat) : List Nat :=
  [15] ++ (List.range (len - 1)).map (· + 3)

/-- The ordinary runs pushed by the loop at lines 1577-1579:
`for (start = 3; start <= 14 - len + 1; start++)` each
`[start, start+1, ..., start+len-1]`. -/
def ordinaryRuns (len : Nat) : List (List Nat) :=
  (List.range (13 - len)).map (fun k => (List.range len).map (fun i => 3 + k + i))

/-- Source: `validSeqs` (lines 1573-1579): the two wrap runs (pushed under
`if (len >= 3)`) followed by the ordinary runs. -/
def validSeqs (len : Nat) : List (List Nat) :=
  (if 3 ≤ len then [wrapSeqA len, wrapSeqTwo len] else []) ++ ordinaryRuns len

/-- The `virtualId` computed for a run (lines 1589-1592): 1 for the
`[14, 15, ...]` wrap, 2 for the `[15, 3, ...]` wrap, else `seq[0]`. -/
def seqVirtualId (seq : List Nat) : Nat :=
  match seq with
  | a :: b :: _ =>
      if a = 14 ∧ b = 15 then 1 else if a = 15 ∧ b = 3 then 2 else a
  | [a] => a
  | [] => 0

/-- The `possibleInterpretations` loop (lines 1581-1595): the virtual id of
every candidate run whose rank set covers the normals, provided the normals
carry no duplicate rank (`uniqueRanks.length !== normals.length` skips). -/
def straightInterps (cards : List Card) : List Nat :=
  (validSeqs cards.length).filterMap (fun seq =>
    if ((normalsOf cards).all fun c => seq.contains c.rank)
        ∧ (uniqueRanksOf cards).length = (normalsOf cards).length
    then some (seqVirtualId seq) else none)

/-- Descending sort used at line 1606:
`possibleInterpretations.sort((a, b) => b.primaryRank - a.primaryRank)`. -/
def sortDesc (l : List Nat) : List Nat :=
  l.insertionSort (fun a b => b ≤ a)

/-- The tail of `analyzeHand`'s STRAIGHT branch (lines 1597-1608): honour the
hint when it names a possible interpretation, else play the largest; `null`
when nothing matched. -/
def straightFallback (interps : List Nat) (hint : Option Nat) (len : Nat) :
    Option Analysis :=
  match interps, hint with
  | [], _ => none
  | i :: is, some h =>
      if (i :: is).contains h then some ⟨.STRAIGHT, h, len, 0⟩
      else some ⟨.STRAIGHT, (sortDesc (i :: is)).headD 0, len, 0⟩
  | i :: is, none =>
      some ⟨.STRAIGHT, (sortDesc (i :: is)).headD 0, len, 0⟩

/-- Source: `analyzeHand(cards, targetRankHint?)` (lines 1540-1612), transcribed
branch for branch.  Notes kept from the source:
* `len` is `sorted.length`, which equals `cards.length`;
* the two `len === 2` PAIR returns (lines 1559-1560) produce the same value
  and are merged into one disjunction;
* the second BOMB `if` (lines 1568-1570) repeats the condition of the first
  verbatim and is unreachable, so it is not transcribed;
* in the STRAIGHT branch, `len >= 3` and `uniqueRanks.length > 1` hold by
  elimination of the earlier branches (`uniqueRanks` is non-empty because
  `normals` is). -/
def analyzeHand (cards : List Card) (targetRankHint : Option Nat := none) :
    Option Analysis :=
  if cards.length = 0 then none
  else if cards.length = 2 ∧ (jokersOf cards).length = 2 then
    some ⟨.KING_BOMB, 17, 2, 99⟩
  else if (normalsOf cards).length = 0 then none
  else if cards.length = 1 then
    if 0 < (jokersOf cards).length then none
    else some ⟨.SINGLE, ((sortCards cards).headD undefinedCard).rank, 1, 0⟩
  else if cards.length = 2 then
    if (uniqueRanksOf cards).length = 1
        ∨ ((jokersOf cards).length = 1 ∧ (normalsOf cards).length = 1) then
      some ⟨.PAIR, ((normalsOf cards).headD undefinedCard).rank, 2, 0⟩
    else none
  else if (uniqueRanksOf cards).length = 1 then
    some ⟨.BOMB, ((normalsOf cards).headD undefinedCard).rank, cards.length,
          cards.length - 2⟩
  else straightFallback (straightInterps cards) targetRankHint cards.length

/-! ## AI strategy (`calculateAiMove`, lines 1646-1865)

The `find*` helpers are closures over `calculateAiMove`'s locals `normals`,
`lowNormals` and `jokers`; here they take those lists as explicit arguments.
JS `for (const k in groups)` over numeric keys iterates in ascending numeric
order, which `ranksAsc` reproduces. -/

/-- The distinct ranks of a pool in ascending order: the iteration order of a
JS object keyed by rank, and also `Object.keys(groups).map(Number).sort()`
of `findStraight` (line 1710). -/
def ranksAsc (pool : List Card) : List Nat :=
  ((pool.map Card.rank).dedup).insertionSort (fun a b => a ≤ b)

/-- Source: `groups[r]`: the cards of rank `r` in pool order (pushed in iteration
order at line 1675). -/
def groupOf (pool : List Card) (r : Nat) : List Card :=
  pool.filter (fun c => c.rank = r)

/-- Source: `findSingle(targetRank, limitToLow)` (lines 1654-1670). -/
def findSingle (normals lowNormals jokers : List Card) (targetRank : Option Nat)
    (limitToLow : Bool) : Option (List Card) :=
  let pool := if limitToLow then lowNormals else normals
  let fromLoop := pool.findSome? (fun cd =>
    match targetRank with
    | some t =>
        if cd.rank = t + 1 then some [cd]
        else if ¬ limitToLow ∧ cd.rank = 15 ∧ t < 15 then some [cd]
        else none
    | none => some [cd])
  match fromLoop with
  | some res => some res
  | none =>
      if targetRank = none ∧ ¬ limitToLow then
        match normals with
        | cd :: _ => some [cd]
        | [] =>
            match jokers with
            | j :: _ => some [j]
            | [] => none
      else none

/-- Source: `findPair(targetRank, limitToLow)` (lines 1672-1689): first rank (in
ascending key order) holding at least two cards and meeting the target rule;
plays `groups[r].slice(0, 2)`. -/
def findPair (normals lowNormals : List Card) (targetRank : Option Nat)
    (limitToLow : Bool) : Option (List Card) :=
  let pool := if limitToLow then lowNormals else normals
  (ranksAsc pool).findSome? (fun r =>
    let g := groupOf pool r
    if 2 ≤ g.length then
      match targetRank with
      | some t =>
          if r = t + 1 then some (g.take 2)
          else if ¬ limitToLow ∧ r = 15 ∧ t < 15 then some (g.take 2)
          else none
      | none => some (g.take 2)
    else none)

/-- Source: `findPairWithWild(targetRank, limitToLow)` (lines 1691-1704): one normal
card meeting the target rule plus the first joker. -/
def findPairWithWild (normals lowNormals jokers : List Card)
    (targetRank : Option Nat) (limitToLow : Bool) : Option (List Card) :=
  match jokers with
  | [] => none
  | j :: _ =>
      let pool := if limitToLow then lowNormals else normals
      pool.findSome? (fun cd =>
        match targetRank with
        | some t =>
            if cd.rank = t + 1 then some [cd, j]
            else if ¬ limitToLow ∧ cd.rank = 15 ∧ t < 15 then some [cd, j]
            else none
        | none => some [cd, j])

/-- Source: `findStraight(minLen, targetRank, limitToLow)` (lines 1706-1729): scan the
ascending distinct ranks for a window of `minLen` consecutive ranks; the card
played for each rank is `groups[rank]`, i.e. the LAST pool card of that rank
(line 1709 overwrites).  Note the scan does not exclude rank 15 (the "2"). -/
def findStraight (normals lowNormals : List Card) (minLen : Nat)
    (targetRank : Option Nat) (limitToLow : Bool) : Option (List Card) :=
  let pool := if limitToLow then lowNormals else normals
  let ranks := ranksAsc pool
  (List.range (ranks.length + 1 - minLen)).findSome? (fun i =>
    let window := (ranks.drop i).take minLen
    let current := ranks.getD i 0
    if window = (List.range minLen).map (fun j => current + j) then
      let seq := window.filterMap (fun r => (groupOf pool r).getLast?)
      match targetRank with
      | some t => if current = t + 1 then some seq else none
      | none => some seq
    else none)

/-- Source: `findStraightWithWild(minLen, targetRank, limitToLow)` (lines 1731-1768):
try each candidate start rank, build the desired run, and fill exactly one
missing rank with the first joker.  The only range guard is
`desiredSeq[desiredSeq.length - 1] > 15 → continue`. -/
def findStraightWithWild (normals lowNormals jokers : List Card) (minLen : Nat)
    (targetRank : Option Nat) (limitToLow : Bool) : Option (List Card) :=
  match jokers with
  | [] => none
  | j :: _ =>
      let pool := if limitToLow then lowNormals else normals
      let uniqueNormals := ranksAsc pool
      let startRanks : List Nat :=
        match targetRank with
        | some t => [t + 1]
        | none => uniqueNormals
      startRanks.findSome? (fun start =>
        let desiredSeq := (List.range minLen).map (start + ·)
        if 15 < desiredSeq.getLastD 0 then none
        else
          let found := desiredSeq.filterMap (fun r => pool.find? (fun cd => cd.rank = r))
          let missing := minLen - found.length
          if missing = 1 ∧ 1 ≤ jokers.length then some (found ++ [j])
          else none)

/-- Source: `findBomb(levelToBeat, rankToBeat)` (lines 1770-1797): king bomb first,
then the lowest rank (ascending key order) and the fewest jokers making a
bomb that beats `(levelToBeat, rankToBeat)`; plays all cards of the rank plus
the used jokers.  `levelToBeat`/`rankToBeat` are `Int` because the leading
branch calls it with `-1`. -/
def findBomb (hand jokers : List Card) (levelToBeat rankToBeat : Int) :
    Option (List Card) :=
  let normalsInHand := hand.filter (fun c => ¬ (c.suit = Suit.joker))
  if jokers.length = 2 ∧ levelToBeat < 99 then some jokers
  else
    (ranksAsc normalsInHand).findSome? (fun r =>
      let g := groupOf normalsInHand r
      (List.range (jokers.length + 1)).findSome? (fun jUsed =>
        let totalCount := g.length + jUsed
        if 3 ≤ totalCount ∧
            (levelToBeat < (totalCount : Int) - 2 ∨
              ((totalCount : Int) - 2 = levelToBeat ∧ rankToBeat < (r : Int)))
        then some (g ++ jokers.take jUsed) else none))

/-- Source: `findBestBomb` (lines 1800-1804) just forwards to `findBomb`. -/
def findBestBomb (hand jokers : List Card) (levelToBeat rankToBeat : Int) :
    Option (List Card) :=
  findBomb hand jokers levelToBeat rankToBeat

/-- The non-null return of `calculateAiMove`: `{ cards, analysis }` where
`analysis` is the (possibly null) result of `analyzeHand` (line 1861). -/
structure AiMove where
  cards : List Card
  analysis : Option Analysis
deriving DecidableEq, Repr

/-- Source: `calculateAiMove(hand, lastHand)` (lines 1646-1865).  The `<|>` chains
transcribe the `if (!move) move = ...` cascades in source order. -/
def calculateAiMove (hand : List Card) (lastHand : Option PlayedHand) :
    Option AiMove :=
  let normals := hand.filter (fun c => ¬ (c.suit = Suit.joker))
  let jokers := hand.filter (fun c => c.suit = Suit.joker)
  let lowNormals := normals.filter (fun c => c.rank < 15)
  let move : Option (List Card) :=
    match lastHand with
    | none =>
        -- LEADING: low straight, low pair, low single, then the unrestricted
        -- fallbacks, then any bomb, then the first card in hand.
        findStraight normals lowNormals 3 none true <|>
        findStraightWithWild normals lowNormals jokers 3 none true <|>
        findPair normals lowNormals none true <|>
        findPairWithWild normals lowNormals jokers none true <|>
        findSingle normals lowNormals jokers none true <|>
        findStraight normals lowNormals 3 none false <|>
        findStraightWithWild normals lowNormals jokers 3 none false <|>
        findPair normals lowNormals none false <|>
        findPairWithWild normals lowNormals jokers none false <|>
        findSingle normals lowNormals jokers none false <|>
        findBestBomb hand jokers (-1) (-1) <|>
        (hand.head?.map (fun cd => [cd]))
    | some lh =>
        -- FOLLOWING: same-type climb, then the bomb fallback.
        (match lh.type with
         | .SINGLE => findSingle normals lowNormals jokers (some lh.primaryRank) false
         | .PAIR =>
             findPair normals lowNormals (some lh.primaryRank) false <|>
             findPairWithWild normals lowNormals jokers (some lh.primaryRank) false
         | .STRAIGHT =>
             findStraight normals lowNormals lh.length (some lh.primaryRank) false <|>
             findStraightWithWild normals lowNormals jokers lh.length
               (some lh.primaryRank) false
         | _ => none) <|>
        (if lh.type ≠ .KING_BOMB then
          findBestBomb hand jokers
            (if lh.type = .BOMB then (lh.bombLevel : Int) else 0)
            (if lh.type = .BOMB then (lh.primaryRank : Int) else 0)
        else none)
  match move with
  | some m =>
      some ⟨m, analyzeHand m
        (match lastHand with
         | some lh => if lh.type = .STRAIGHT then some (lh.primaryRank + 1) else none
         | none => none)⟩
  | none => none

/-! ## Turn/round state machine (lines 2409-2837)

`setGameState(prev => ...)` updaters become pure functions `GameState →
GameState`.  Array writes `arr[i] = v` become `updateAt`; the source's shallow
array copies (`[...prev.players]`) share the player objects with `prev`, so
in-place player mutations are visible through every alias — the embedding
reproduces the net state each updater leaves behind. -/

/-- Source: `arr[n] = g(arr[n])`; out-of-range indices leave the list unchanged (the
source would throw there; every use is guarded by the invariants proved
below). -/
def updateAt : Nat → (α → α) → List α → List α
  | _, _, [] => []
  | 0, g, a :: l => g a :: l
  | n + 1, g, a :: l => a :: updateAt n g l

/-- Source: `updateAt` at a possibly-negative (JS) index: negative indices are
modelled as no-ops (the source would throw). -/
def updateAtInt (i : Int) (g : α → α) (l : List α) : List α :=
  if i < 0 then l else updateAt i.toNat g l

/-- The `players.forEach` dealing loop of `dealAndPlay` (lines 2410-2414):
each player's hand is `sortCards(deck.splice(0, idx === dealerIdx ? 6 : 5))`
and `cardsLeft` is recomputed; the deck is threaded left to right. -/
def dealHands (dealerIdx : Nat) : List Player → Nat → List Card → List Player × List Card
  | [], _, deck => ([], deck)
  | p :: rest, idx, deck =>
      let cardsToTake := if idx = dealerIdx then 6 else 5
      let hand := sortCards (deck.take cardsToTake)
      let p' := { p with hand := hand, cardsLeft := hand.length }
      let r := dealHands dealerIdx rest (idx + 1) (deck.drop cardsToTake)
      (p' :: r.1, r.2)

/-- Source: `dealAndPlay(players, deck, dealerIdx, initialScores, initialHistory)`
(lines 2409-2437).  `isHost`/`myPlayerId` are read from the previous state
with a default in the source (`prev.isHost !== undefined ? prev.isHost :
true`); they are plain parameters here.  The constructed state does not carry
`roomId` (the source object literal omits it). -/
def dealAndPlay (players : List Player) (deck : List Card) (dealerIdx : Nat)
    (initialScores : Nat → Int) (initialHistory : List (Nat → Int))
    (isHost : Bool := true) (myPlayerId : Nat := 0) : GameState :=
  let dealt := dealHands dealerIdx players 0 deck
  { status := .playing
    players := dealt.1
    deck := dealt.2
    tablePile := []
    currentPlayerIndex := dealerIdx
    lastWinnerIndex := (dealerIdx : Int)
    dealerId := dealerIdx
    passesInARow := 0
    roundsFinishedAfterDeckEmpty := 0
    bombCount := 0
    scores := initialScores
    gameHistory := initialHistory
    roomId := none
    isHost := isHost
    myPlayerId := myPlayerId }

/-- Source: `playHand(cards, analysis)` (lines 2655-2702).  When the play empties the
hand the source updater returns `prev` and calls `handleWin` (lines
2551-2562), whose own immediate update (status `celebrating`, the mutated
players, the new bomb count, the winner index, the played hand appended to the
pile) is folded in here; `handleWin`'s delayed transition to `scoring` is a
separate timer and is not part of this step.  `analysis` is non-null here: a
null analysis makes the source throw at `analysis.type`. -/
def playHand (cards : List Card) (analysis : Analysis) (prev : GameState) :
    GameState :=
  match prev.players[prev.currentPlayerIndex]? with
  | none => prev
  | some player0 =>
      let playerIndex := prev.currentPlayerIndex
      let cardIds := cards.map Card.id
      let newHand := player0.hand.filter (fun c => !(cardIds.contains c.id))
      let player := { player0 with
        hand := newHand, cardsLeft := newHand.length,
        hasPlayed := true, lastAction := some .PLAY }
      let newPlayers := updateAt playerIndex (fun _ => player) prev.players
      let isBomb := analysis.type = HandType.BOMB ∨ analysis.type = HandType.KING_BOMB
      let newBombCount := prev.bombCount +
        (if isBomb then
          (if analysis.type = HandType.KING_BOMB then 1 else max 1 analysis.bombLevel)
         else 0)
      let playedHand : PlayedHand :=
        { playerId := playerIndex, cards := cards, type := analysis.type,
          primaryRank := analysis.primaryRank, length := analysis.length,
          bombLevel := analysis.bombLevel }
      if player.cardsLeft = 0 then
        -- handleWin(playerIndex, newBombCount, newPlayers, playedHand)
        { prev with
            status := .celebrating
            players := newPlayers
            bombCount := newBombCount
            lastWinnerIndex := (playerIndex : Int)
            tablePile := prev.tablePile ++ [playedHand] }
      else
        { prev with
            players := newPlayers
            tablePile := prev.tablePile ++ [playedHand]
            lastWinnerIndex := (playerIndex : Int)
            passesInARow := 0
            roundsFinishedAfterDeckEmpty := 0
            bombCount := newBombCount
            currentPlayerIndex := (playerIndex + 1) % newPlayers.length }

/-- Source: `nextTurn(passed)` (lines 2592-2653).  The second component reports
whether the draw branch fired (`setTimeout(() => handleDraw(), 0)` at line
2630); in that case the updater returns `currentState`, whose player objects
have nevertheless been mutated in place (the `lastAction` writes, and the
winner's drawn card when the deck was non-empty), which the returned state
reflects. -/
def nextTurn (passed : Bool) (s : GameState) : GameState × Bool :=
  let nextIndex := (s.currentPlayerIndex + 1) % s.players.length
  let nextPasses := if passed then s.passesInARow + 1 else 0
  let players1 := updateAt s.currentPlayerIndex
    (fun p => { p with lastAction := some (if passed then PAction.PASS else PAction.PLAY) })
    s.players
  if s.players.length - 1 ≤ nextPasses then
    let roundWinner : Int :=
      match s.tablePile.getLast? with
      | some lastPlay => (lastPlay.playerId : Int)
      | none => s.lastWinnerIndex
    let players2 := players1.map (fun p => { p with lastAction := none })
    let dealt : List Card × List Player × Nat :=
      match s.deck with
      | drawn :: rest =>
          (rest,
           updateAtInt roundWinner
             (fun p : Player =>
               let h := sortCards (p.hand ++ [drawn])
               { p with hand := h, cardsLeft := h.length }) players2,
           s.roundsFinishedAfterDeckEmpty)
      | [] => (s.deck, players2, s.roundsFinishedAfterDeckEmpty + 1)
    if 2 ≤ dealt.2.2 then
      ({ s with players := dealt.2.1 }, true)
    else
      ({ s with
          deck := dealt.1
          players := dealt.2.1
          currentPlayerIndex := roundWinner.toNat
          lastWinnerIndex := roundWinner
          passesInARow := 0
          roundsFinishedAfterDeckEmpty := dealt.2.2
          tablePile := [] }, false)
  else
    ({ s with
        players := players1
        currentPlayerIndex := nextIndex
        passesInARow := nextPasses }, false)

/-- The host path of `handleUserPass` (lines 2827-2837): an empty table pile
rejects the pass with no state change; otherwise `nextTurn(true)`.  (On a
guest the same guard runs before sending `ACTION_PASS` over the channel.) -/
def handleUserPassHost (s : GameState) : GameState × Bool :=
  if s.tablePile.length = 0 then (s, false)
  else nextTurn true s

/-- The host's handler for an inbound guest `ACTION_PASS` (lines 2208-2210 of
`handleNetworkData`): `nextTurn(true)` with no empty-table check. -/
def applyActionPass (s : GameState) : GameState × Bool :=
  nextTurn true s

/-! ## Traces through the `playing` state -/

/-- One `playing`-state action as the host applies it. -/
inductive Step where
  | play (cards : List Card) (analysis : Analysis)
  | pass
deriving Repr

/-- Apply one step; the `Bool` is `nextTurn`'s draw-schedule flag. -/
def applyStep (s : GameState) : Step → GameState × Bool
  | .play cards analysis => (playHand cards analysis s, false)
  | .pass => nextTurn true s

/-- Run a list of steps left to right. -/
def runSteps (s : GameState) : List Step → GameState
  | [] => s
  | st :: rest => runSteps (applyStep s st).1 rest

/-- Whether any step of the trace schedules `handleDraw`. -/
def drawTriggeredAlong (s : GameState) : List Step → Bool
  | [] => false
  | st :: rest => (applyStep s st).2 || drawTriggeredAlong (applyStep s st).1 rest

/-- How many cards one step removes from the acting player's hand (the cards
of the play whose ids occur in that hand; a pass removes none). -/
def removedBy (s : GameState) : Step → Nat
  | .play cards _ =>
      match s.players[s.currentPlayerIndex]? with
      | some p => (p.hand.filter (fun c => (cards.map Card.id).contains c.id)).length
      | none => 0
  | .pass => 0

/-- Total cards removed from hands along a trace. -/
def removedAlong (s : GameState) : List Step → Nat
  | [] => 0
  | st :: rest => removedBy s st + removedAlong (applyStep s st).1 rest

/-- A step the running system can actually perform: actions only happen in
`playing`, and a pass only with a non-empty table pile (`handleUserPass`
rejects it otherwise, and the AI never passes when leading: with no table
hand `calculateAiMove` always returns a move for a non-empty hand). -/
inductive LegalStep : GameState → Step → Prop
  | play {s cards analysis} : s.status = .playing → LegalStep s (.play cards analysis)
  | pass {s} : s.status = .playing → s.tablePile ≠ [] → LegalStep s .pass

/-- A legal trace: every step legal in the state it is applied to. -/
inductive LegalTrace : GameState → List Step → Prop
  | nil {s} : LegalTrace s []
  | cons {s st rest} : LegalStep s st → LegalTrace (applyStep s st).1 rest →
      LegalTrace s (st :: rest)

/-- Source: `deck.length + Σ players[i].cardsLeft`, the quantity of claim C2. -/
def leftTotal (s : GameState) : Nat :=
  s.deck.length + (s.players.map Player.cardsLeft).sum

/-- Same accounting through the actual hands. -/
def handTotal (s : GameState) : Nat :=
  s.deck.length + (s.players.map (fun p => p.hand.length)).sum

/-- The state invariants maintained by legal play, established by
`dealAndPlay`:  indices in range, every pile entry attributed to a seated
player, `cardsLeft` derived from the hand, and — the key to the stalemate
analysis — a zero `roundsFinishedAfterDeckEmpty` counter whenever the table
pile is non-empty in `playing`. -/
structure Inv (s : GameState) : Prop where
  posPlayers : 0 < s.players.length
  curLt : s.currentPlayerIndex < s.players.length
  lastWinnerNonneg : 0 ≤ s.lastWinnerIndex
  lastWinnerLt : s.lastWinnerIndex < (s.players.length : Int)
  pileIds : ∀ ph ∈ s.tablePile, ph.playerId < s.players.length
  counterZero : s.status = .playing → s.tablePile ≠ [] →
    s.roundsFinishedAfterDeckEmpty = 0
  cardsLeftEq : ∀ p ∈ s.players, p.cardsLeft = p.hand.length

/-! ## Generic list lemmas -/

theorem sortCards_perm (cards : List Card) : (sortCards cards).Perm cards :=
  List.perm_insertionSort _ cards

theorem sortCards_length (cards : List Card) :
    (sortCards cards).length = cards.length :=
  (sortCards_perm cards).length_eq

theorem length_updateAt (n : Nat) (g : α → α) (l : List α) :
    (updateAt n g l).length = l.length := by
  induction l generalizing n with
  | nil => cases n <;> rfl
  | cons a l ih =>
      cases n with
      | zero => rfl
      | succ n => simpa [updateAt] using ih n

theorem forall_mem_updateAt {P : α → Prop} {l : List α} (n : Nat) (g : α → α)
    (hP : ∀ a ∈ l, P a) (hPg : ∀ a ∈ l, P (g a)) :
    ∀ b ∈ updateAt n g l, P b := by
  induction l generalizing n with
  | nil => intro b hb; cases n <;> simp [updateAt] at hb
  | cons a l ih =>
      intro b hb
      cases n with
      | zero =>
          rw [updateAt] at hb
          rcases List.mem_cons.mp hb with hb | hb
          · exact hb ▸ hPg a (by simp)
          · exact hP b (by simp [hb])
      | succ n =>
          rw [updateAt] at hb
          rcases List.mem_cons.mp hb with hb | hb
          · exact hb ▸ hP a (by simp)
          · exact ih n (fun x hx => hP x (by simp [hx]))
              (fun x hx => hPg x (by simp [hx])) b hb

theorem sum_map_updateAt_of_comp (f : α → Nat) (g : α → α) (n : Nat) (l : List α)
    (hfg : ∀ a, f (g a) = f a) :
    ((updateAt n g l).map f).sum = (l.map f).sum := by
  induction l generalizing n with
  | nil => cases n <;> rfl
  | cons a l ih =>
      cases n with
      | zero => simp [updateAt, hfg]
      | succ n => simp [updateAt, ih n]

theorem sum_map_updateAt (f : α → Nat) (g : α → α) (n : Nat) (l : List α) (d : α)
    (hn : n < l.length) :
    ((updateAt n g l).map f).sum + f (l.getD n d) =
      (l.map f).sum + f (g (l.getD n d)) := by
  induction l generalizing n with
  | nil => simp at hn
  | cons a l ih =>
      cases n with
      | zero => simp [updateAt]; omega
      | succ n =>
          have := ih n (by simpa using hn)
          simp only [updateAt, List.map_cons, List.sum_cons, List.getD_cons_succ]
          omega

theorem getD_updateAt_self (n : Nat) (g : α → α) (l : List α) (d : α)
    (hn : n < l.length) :
    (updateAt n g l).getD n d = g (l.getD n d) := by
  induction l generalizing n with
  | nil => simp at hn
  | cons a l ih =>
      cases n with
      | zero => rfl
      | succ n => simpa [updateAt] using ih n (by simpa using hn)

theorem length_filter_split (p : α → Bool) (l : List α) :
    (l.filter p).length + (l.filter (fun a => !(p a))).length = l.length := by
  induction l with
  | nil => rfl
  | cons a l ih =>
      by_cases h : p a <;> simp [List.filter_cons, h] <;> omega

/-! ## C5 / C6: the move comparator -/

/-- C5: Ladder rule.  For classified non-bomb hands (SINGLE/PAIR/STRAIGHT) of
equal type and equal length, `canBeat` for SINGLE/PAIR holds iff the candidate
rank is exactly `last.primaryRank + 1` or the candidate rank is 15 against a
sub-15 rank; for STRAIGHT iff `primaryRank = last.primaryRank + 1`; and
whenever the types or lengths differ (neither hand a bomb), `canBeat` is
false. -/
theorem canBeat_ladder (move : Analysis) (last : PlayedHand)
    (hm : move.type = .SINGLE ∨ move.type = .PAIR ∨ move.type = .STRAIGHT)
    (hl : last.type = .SINGLE ∨ last.type = .PAIR ∨ last.type = .STRAIGHT) :
    (move.type = last.type → move.length = last.length →
      (move.type = .SINGLE ∨ move.type = .PAIR →
        (canBeat move last = true ↔
          (move.primaryRank = last.primaryRank + 1 ∨
            (move.primaryRank = 15 ∧ last.primaryRank < 15)))) ∧
      (move.type = .STRAIGHT →
        (canBeat move last = true ↔ move.primaryRank = last.primaryRank + 1)))
    ∧ (¬ (move.type = last.type) ∨ ¬ (move.length = last.length) →
        canBeat move last = false) := by
  have hmk : ¬ (move.type = .KING_BOMB) := by rcases hm with h | h | h <;> simp [h]
  have hmb : ¬ (move.type = .BOMB) := by rcases hm with h | h | h <;> simp [h]
  have hlk : ¬ (last.type = .KING_BOMB) := by rcases hl with h | h | h <;> simp [h]
  have hlb : ¬ (last.type = .BOMB) := by rcases hl with h | h | h <;> simp [h]
  constructor
  · intro hty hlen
    constructor
    · intro hsp
      rw [canBeat, if_neg hmk, if_neg hlk, if_neg hmb, if_neg hlb,
        if_neg (not_not_intro hty), if_neg (not_not_intro hlen), if_pos hsp]
      split_ifs with h1 h2
      · simp [h1]
      · simp [h2]
      · simp [h1, h2]
    · intro hst
      rw [canBeat, if_neg hmk, if_neg hlk, if_neg hmb, if_neg hlb,
        if_neg (not_not_intro hty), if_neg (not_not_intro hlen),
        if_neg (by simp [hst]), if_pos hst]
      simp
  · intro hd
    by_cases hty : move.type = last.type
    · rcases hd with hd | hd
      · exact absurd hty hd
      · rw [canBeat, if_neg hmk, if_neg hlk, if_neg hmb, if_neg hlb,
          if_neg (not_not_intro hty), if_pos hd]
    · rw [canBeat, if_neg hmk, if_neg hlk, if_neg hmb, if_neg hlb, if_pos hty]

/-- C5 witness: a pair of 8s beats a pair of 7s by the successor rule. -/
theorem canBeat_ladder_witness :
    ((Analysis.mk .PAIR 8 2 0).type = .PAIR ∨ True) ∧
      canBeat ⟨.PAIR, 8, 2, 0⟩ ⟨0, [], .PAIR, 7, 2, 0⟩ = true := by
  have h := canBeat_ladder ⟨.PAIR, 8, 2, 0⟩ ⟨0, [], .PAIR, 7, 2, 0⟩
    (Or.inr (Or.inl rfl)) (Or.inr (Or.inl rfl))
  exact ⟨Or.inr trivial, ((h.1 rfl rfl).1 (Or.inr rfl)).2 (Or.inl rfl)⟩

/-- C6: `canBeat` with a KING_BOMB mover is true against every table hand,
and no non-KING_BOMB hand ever beats a KING_BOMB. -/
theorem canBeat_kingBomb (move : Analysis) (last : PlayedHand) :
    (move.type = .KING_BOMB → canBeat move last = true)
    ∧ (¬ (move.type = .KING_BOMB) → last.type = .KING_BOMB →
        canBeat move last = false) := by
  constructor
  · intro h; simp [canBeat, h]
  · intro h h'; simp [canBeat, h, h']

/-- C6 witness: the king bomb beats a quad-2 bomb, and that bomb does not
beat the king bomb. -/
theorem canBeat_kingBomb_witness :
    canBeat ⟨.KING_BOMB, 17, 2, 99⟩ ⟨0, [], .BOMB, 15, 4, 2⟩ = true ∧
      canBeat ⟨.BOMB, 15, 4, 2⟩ ⟨0, [], .KING_BOMB, 17, 2, 99⟩ = false :=
  ⟨(canBeat_kingBomb ⟨.KING_BOMB, 17, 2, 99⟩ ⟨0, [], .BOMB, 15, 4, 2⟩).1 rfl,
   (canBeat_kingBomb ⟨.BOMB, 15, 4, 2⟩ ⟨0, [], .KING_BOMB, 17, 2, 99⟩).2
     (by simp) rfl⟩

/-! ## C7: the scoring engine -/

theorem scoreLoop_totalWin (w : Nat) (m : Int) (players : List Player) :
    ∀ t sc dl, (scoreLoop w m players t sc dl).1 =
      t + ((players.filter (fun p => p.id ≠ w)).map
            (fun p => (scoreBase p : Int) * m)).sum := by
  induction players with
  | nil => intro t sc dl; simp [scoreLoop]
  | cons p rest ih =>
      intro t sc dl
      by_cases h : p.id = w
      · simp [scoreLoop, h, ih]
      · simp [scoreLoop, h, ih]
        ring

theorem scoreLoop_deltas_untouched (w : Nat) (m : Int) (players : List Player)
    (k : Nat) (hk : k ∉ players.map Player.id) :
    ∀ t sc dl, (scoreLoop w m players t sc dl).2.2 k = dl k := by
  induction players with
  | nil => intro t sc dl; simp [scoreLoop]
  | cons p rest ih =>
      intro t sc dl
      have hne : k ≠ p.id := fun h => hk (by simp [h])
      have hrest : k ∉ rest.map Player.id := fun h => hk (by simp [h])
      simp [scoreLoop, ih hrest, fset, hne]

theorem scoreLoop_deltas_loser (w : Nat) (m : Int) (players : List Player)
    (hids : (players.map Player.id).Nodup) (p : Player) (hp : p ∈ players)
    (hpw : p.id ≠ w) :
    ∀ t sc dl, (scoreLoop w m players t sc dl).2.2 p.id =
      -((scoreBase p : Int) * m) := by
  induction players with
  | nil => cases hp
  | cons q rest ih =>
      intro t sc dl
      rcases List.mem_cons.mp hp with hq | hq
      · subst hq
        have hnot : p.id ∉ rest.map Player.id := by
          simpa using (List.nodup_cons.mp hids).1
        rw [scoreLoop, scoreLoop_deltas_untouched w m rest p.id hnot]
        simp [fset, hpw]
      · exact ih (List.nodup_cons.mp hids).2 hq _ _ _

/-- C7: `calculateScores` computes `multiplier = 2^bombCount`; each
non-winning player's recorded delta is `-base * multiplier` with
`base = cardsLeft`, except `base = 0` when `cardsLeft = 1` and
`base = cardsLeft * 2` when `cardsLeft = 5` and the player never played; the
winner's recorded delta is the sum of all losers' penalties. -/
theorem calculateScores_spec (winnerIdx : Nat) (players : List Player)
    (bombs : Nat) (oldScores : Nat → Int)
    (hids : (players.map Player.id).Nodup) :
    (∀ p ∈ players, p.id ≠ winnerIdx →
      (calculateScores winnerIdx players bombs oldScores).2 p.id =
        -(((if p.cardsLeft = 1 then 0
            else if p.cardsLeft = 5 ∧ p.hasPlayed = false then p.cardsLeft * 2
            else p.cardsLeft : Nat) : Int) * 2 ^ bombs))
    ∧ (calculateScores winnerIdx players bombs oldScores).2 winnerIdx =
        ((players.filter (fun p => p.id ≠ winnerIdx)).map
          (fun p => (((if p.cardsLeft = 1 then 0
            else if p.cardsLeft = 5 ∧ p.hasPlayed = false then p.cardsLeft * 2
            else p.cardsLeft : Nat) : Int) * 2 ^ bombs))).sum := by
  have hbase : ∀ p : Player,
      (scoreBase p : Int) =
        ((if p.cardsLeft = 1 then 0
          else if p.cardsLeft = 5 ∧ p.hasPlayed = false then p.cardsLeft * 2
          else p.cardsLeft : Nat) : Int) := by
    intro p
    unfold scoreBase
    by_cases h1 : p.cardsLeft = 1
    · simp [h1]
    · by_cases h5 : p.cardsLeft = 5 ∧ ¬ p.hasPlayed
      · simp [h1, h5, h5.1, h5.2]
      · have : ¬ (p.cardsLeft = 5 ∧ p.hasPlayed = false) := by
          simpa [Bool.not_eq_true] using h5
        simp [h1, h5, this]
  constructor
  · intro p hp hpw
    have := scoreLoop_deltas_loser winnerIdx (2 ^ bombs) players hids p hp hpw
      0 oldScores (fun _ => 0)
    unfold calculateScores
    simp only [fset, if_neg hpw]
    rw [this, hbase p]
  · unfold calculateScores
    simp only [fset, if_pos rfl]
    rw [scoreLoop_totalWin]
    rw [zero_add, if_pos trivial]
    congr 1
    apply List.map_congr_left
    intro p hp
    rw [hbase p]

/-- Concrete players of the spec scenario: winner 0, losers with
`cardsLeft = [1, 5, 3]` and `hasPlayed = [true, false, true]`. -/
def scnPlayers : List Player :=
  [⟨0, "w", false, [], 0, true, none, .host, "", none⟩,
   ⟨1, "a", true, [], 1, true, none, .bot, "", none⟩,
   ⟨2, "b", true, [], 5, false, none, .bot, "", none⟩,
   ⟨3, "c", true, [], 3, true, none, .bot, "", none⟩]

/-- C7 witness: with `bombCount = 1` the deltas are `[0, -20, -6]` and the
winner gains `+26`. -/
theorem calculateScores_spec_witness :
    (calculateScores 0 scnPlayers 1 (fun _ => 0)).2 1 = 0 ∧
    (calculateScores 0 scnPlayers 1 (fun _ => 0)).2 2 = -20 ∧
    (calculateScores 0 scnPlayers 1 (fun _ => 0)).2 3 = -6 ∧
    (calculateScores 0 scnPlayers 1 (fun _ => 0)).2 0 = 26 := by
  have h := calculateScores_spec 0 scnPlayers 1 (fun _ => 0) (by decide)
  refine ⟨?_, ?_, ?_, ?_⟩
  · have := h.1 ⟨1, "a", true, [], 1, true, none, .bot, "", none⟩
      (by simp [scnPlayers]) (by decide)
    simpa using this
  · have := h.1 ⟨2, "b", true, [], 5, false, none, .bot, "", none⟩
      (by simp [scnPlayers]) (by decide)
    simpa using this
  · have := h.1 ⟨3, "c", true, [], 3, true, none, .bot, "", none⟩
      (by simp [scnPlayers]) (by decide)
    simpa using this
  · have := h.2
    simpa [scnPlayers] using this

/-! ## C8: STRAIGHT ambiguity resolution -/

theorem sortDesc_headD_is_max (l : List Nat) (hl : l ≠ []) :
    (sortDesc l).headD 0 ∈ l ∧ ∀ x ∈ l, x ≤ (sortDesc l).headD 0 := by
  haveI htot : IsTotal Nat (fun a b : Nat => b ≤ a) := ⟨fun a b => (le_total b a)⟩
  haveI htr : IsTrans Nat (fun a b : Nat => b ≤ a) :=
    ⟨fun a b c hab hbc => le_trans hbc hab⟩
  have hperm : (sortDesc l).Perm l := List.perm_insertionSort _ l
  have hsorted : List.Sorted (fun a b : Nat => b ≤ a) (sortDesc l) :=
    List.sorted_insertionSort _ l
  have hne : sortDesc l ≠ [] := by
    intro hnil
    rw [hnil] at hperm
    exact hl hperm.symm.eq_nil
  obtain ⟨h, t, hd⟩ := List.exists_cons_of_ne_nil hne
  rw [hd] at hperm hsorted ⊢
  have hmem : h ∈ l := hperm.mem_iff.mp (by simp)
  refine ⟨hmem, fun x hx => ?_⟩
  have hx' : x ∈ h :: t := hperm.symm.mem_iff.mp hx
  rcases List.mem_cons.mp hx' with hx' | hx'
  · simp [hx']
  · exact (List.pairwise_cons.mp hsorted).1 x hx'

theorem headD_map_range (f : Nat → Nat) (m d : Nat) :
    ((List.range (m + 2)).map f).headD d = f 0 := by
  rw [List.range_succ_eq_map]
  rfl

theorem seqVirtualId_map_range (f : Nat → Nat) (m : Nat) :
    seqVirtualId ((List.range (m + 2)).map f) =
      if f 0 = 14 ∧ f 1 = 15 then 1 else if f 0 = 15 ∧ f 1 = 3 then 2 else f 0 := by
  rw [List.range_succ_eq_map, List.range_succ_eq_map]
  simp [seqVirtualId]

/-- C8: when a straight-shaped selection matches several candidate runs,
`analyzeHand` returns the run whose virtual id equals `targetRankHint` when
one exists, and otherwise a matching run whose virtual id is largest; the
virtual id of a run is 1 for the `[A, 2, 3...]` wrap, 2 for the
`[2, 3, 4...]` wrap, and the run's lowest ordinary rank otherwise. -/
theorem analyzeHand_straight_disambiguation (cards : List Card) (h : Nat)
    (h3 : 3 ≤ cards.length)
    (hn : (normalsOf cards).length ≠ 0)
    (hu : 1 < (uniqueRanksOf cards).length)
    (hi : straightInterps cards ≠ []) :
    (h ∈ straightInterps cards →
      analyzeHand cards (some h) = some ⟨.STRAIGHT, h, cards.length, 0⟩)
    ∧ (h ∉ straightInterps cards →
      ∃ m ∈ straightInterps cards, (∀ x ∈ straightInterps cards, x ≤ m) ∧
        analyzeHand cards (some h) = some ⟨.STRAIGHT, m, cards.length, 0⟩)
    ∧ (∀ len, 3 ≤ len →
        seqVirtualId (wrapSeqA len) = 1 ∧ seqVirtualId (wrapSeqTwo len) = 2 ∧
        ∀ seq ∈ ordinaryRuns len,
          seqVirtualId seq = seq.headD 0 ∧ ∀ r ∈ seq, seq.headD 0 ≤ r) := by
  have c1 : ¬ (cards.length = 0) := by omega
  have c2 : ¬ (cards.length = 2 ∧ (jokersOf cards).length = 2) := by
    rintro ⟨h2, _⟩; omega
  have c4 : ¬ (cards.length = 1) := by omega
  have c5 : ¬ (cards.length = 2) := by omega
  have c6 : ¬ ((uniqueRanksOf cards).length = 1) := by omega
  have hfall : analyzeHand cards (some h) =
      straightFallback (straightInterps cards) (some h) cards.length := by
    rw [analyzeHand, if_neg c1, if_neg c2, if_neg hn, if_neg c4, if_neg c5,
      if_neg c6]
  refine ⟨?_, ?_, ?_⟩
  · intro hmem
    rcases hcase : straightInterps cards with _ | ⟨i, is⟩
    · exact absurd hcase hi
    · have hc : (i :: is).contains h = true := List.elem_iff.mpr (hcase ▸ hmem)
      rw [hfall, hcase]
      simp only [straightFallback]
      rw [if_pos hc]
  · intro hmem
    rcases hcase : straightInterps cards with _ | ⟨i, is⟩
    · exact absurd hcase hi
    · have hmax := sortDesc_headD_is_max (i :: is) (by simp)
      refine ⟨(sortDesc (i :: is)).headD 0, hcase ▸ hmax.1,
        fun x hx => hmax.2 x (hcase ▸ hx), ?_⟩
      have hnc : ¬ ((i :: is).contains h = true) := by
        rw [List.elem_iff]
        exact fun hc => hmem (hcase ▸ hc)
      rw [hfall, hcase]
      simp only [straightFallback]
      rw [if_neg hnc]
  · intro len hlen
    refine ⟨rfl, ?_, ?_⟩
    · obtain ⟨k, hk⟩ : ∃ k, len - 1 = k + 1 := ⟨len - 2, by omega⟩
      rw [wrapSeqTwo, hk, List.range_succ_eq_map]
      simp [seqVirtualId]
    · intro seq hseq
      rw [ordinaryRuns] at hseq
      rcases List.mem_map.mp hseq with ⟨k, hk, hkseq⟩
      have hk13 : k < 13 - len := List.mem_range.mp hk
      obtain ⟨m, hm⟩ : ∃ m, len = m + 2 := ⟨len - 2, by omega⟩
      rw [hm] at hkseq
      constructor
      · have e14 : ¬ (3 + k + 0 = 14 ∧ 3 + k + 1 = 15) := by omega
        have e15 : ¬ (3 + k + 0 = 15 ∧ 3 + k + 1 = 3) := by omega
        rw [← hkseq, seqVirtualId_map_range, headD_map_range]
        show (if 3 + k + 0 = 14 ∧ 3 + k + 1 = 15 then 1
              else if 3 + k + 0 = 15 ∧ 3 + k + 1 = 3 then 2 else 3 + k + 0) =
            3 + k + 0
        rw [if_neg e14, if_neg e15]
      · intro r hr
        rw [← hkseq] at hr
        rcases List.mem_map.mp hr with ⟨i, _, hir⟩
        rw [← hkseq, headD_map_range]
        omega

/-- Cards used by the C8 witness: 3♠, 4♠ and a joker — a selection matching
both the `[2,3,4]` wrap (virtual id 2) and the `[3,4,5]` run (virtual id 3). -/
def ambiguousStraight : List Card :=
  [⟨"s3", .spades, 3, "3"⟩, ⟨"s4", .spades, 4, "4"⟩, ⟨"j1", .joker, 16, "小王"⟩]

/-- C8 witness: with hint 2 the wrap run is chosen; without a matching hint
the largest virtual id (3) wins. -/
theorem analyzeHand_straight_disambiguation_witness :
    straightInterps ambiguousStraight = [2, 3] ∧
    analyzeHand ambiguousStraight (some 2) = some ⟨.STRAIGHT, 2, 3, 0⟩ ∧
    analyzeHand ambiguousStraight (some 9) = some ⟨.STRAIGHT, 3, 3, 0⟩ := by
  refine ⟨by decide, ?_, ?_⟩
  · exact (analyzeHand_straight_disambiguation ambiguousStraight 2
      (by decide) (by decide) (by decide) (by decide)).1 (by decide)
  · obtain ⟨m, hm, hmax, heq⟩ := (analyzeHand_straight_disambiguation
      ambiguousStraight 9 (by decide) (by decide) (by decide) (by decide)).2.1
      (by decide)
    have h2 : straightInterps ambiguousStraight = [2, 3] := by decide
    rw [h2] at hm hmax
    have h3le : 3 ≤ m := hmax 3 (by simp)
    have hm23 : m = 2 ∨ m = 3 := by simpa using hm
    have hm3 : m = 3 := by omega
    rw [heq, hm3]
    rfl

/-! ## C9: order-independence of classification -/

theorem perm_all_eq {l l' : List α} (h : l.Perm l') (p : α → Bool) :
    l.all p = l'.all p := by
  cases hall : l'.all p
  · rw [List.all_eq_false] at hall ⊢
    rcases hall with ⟨x, hx, hpx⟩
    exact ⟨x, h.mem_iff.mpr hx, hpx⟩
  · rw [List.all_eq_true] at hall ⊢
    exact fun x hx => hall x (h.mem_iff.mp hx)

theorem headD_rank_eq_of_uniform {l l' : List Card} (hp : l.Perm l')
    (hl : l ≠ []) (hu : ((l.map Card.rank).dedup).length = 1) (d : Card) :
    (l.headD d).rank = (l'.headD d).rank := by
  obtain ⟨r, hr⟩ := List.length_eq_one.mp hu
  have hall : ∀ x ∈ l, x.rank = r := by
    intro x hx
    have hmem : x.rank ∈ (l.map Card.rank).dedup :=
      List.mem_dedup.mpr (List.mem_map_of_mem _ hx)
    rw [hr] at hmem
    simpa using hmem
  have hl' : l' ≠ [] := by
    intro hnil
    rw [hnil] at hp
    exact hl hp.eq_nil
  obtain ⟨a, t, ha⟩ := List.exists_cons_of_ne_nil hl
  obtain ⟨a', t', ha'⟩ := List.exists_cons_of_ne_nil hl'
  rw [ha, ha']
  simp only [List.headD_cons]
  rw [hall a (by rw [ha]; simp),
    hall a' (hp.mem_iff.mpr (by rw [ha']; simp))]

/-- C9: classification is order-independent — permuting the selected cards
never changes the result of `analyzeHand` (same hint). -/
theorem analyzeHand_perm (cards cards' : List Card) (hint : Option Nat)
    (hp : cards.Perm cards') :
    analyzeHand cards hint = analyzeHand cards' hint := by
  by_cases hone : cards.length = 1
  · obtain ⟨a, ha⟩ := List.length_eq_one.mp hone
    have ha' : cards' = [a] := List.perm_singleton.mp (ha ▸ hp).symm
    rw [ha, ha']
  · have e_len : cards.length = cards'.length := hp.length_eq
    have p_sort : (sortCards cards).Perm (sortCards cards') :=
      ((sortCards_perm cards).trans hp).trans (sortCards_perm cards').symm
    have p_jok : (jokersOf cards).Perm (jokersOf cards') := p_sort.filter _
    have p_nor : (normalsOf cards).Perm (normalsOf cards') := p_sort.filter _
    have e_jok : (jokersOf cards).length = (jokersOf cards').length :=
      p_jok.length_eq
    have e_nor : (normalsOf cards).length = (normalsOf cards').length :=
      p_nor.length_eq
    have e_uniq : (uniqueRanksOf cards).length = (uniqueRanksOf cards').length :=
      ((p_nor.map Card.rank).dedup).length_eq
    have e_all : ∀ f : Card → Bool,
        (normalsOf cards).all f = (normalsOf cards').all f :=
      fun f => perm_all_eq p_nor f
    have e_interps : straightInterps cards = straightInterps cards' := by
      rw [straightInterps, straightInterps, e_len]
      simp only [e_all, e_uniq, e_nor]
    have hone' : ¬ (cards'.length = 1) := by omega
    by_cases h0 : cards.length = 0
    · have h0' : cards'.length = 0 := by omega
      rw [analyzeHand, analyzeHand, if_pos h0, if_pos h0']
    · have h0' : ¬ (cards'.length = 0) := by omega
      by_cases hkb : cards.length = 2 ∧ (jokersOf cards).length = 2
      · have hkb' : cards'.length = 2 ∧ (jokersOf cards').length = 2 := by omega
        rw [analyzeHand, analyzeHand, if_neg h0, if_neg h0', if_pos hkb,
          if_pos hkb']
      · have hkb' : ¬ (cards'.length = 2 ∧ (jokersOf cards').length = 2) := by
          omega
        by_cases hnor : (normalsOf cards).length = 0
        · have hnor' : (normalsOf cards').length = 0 := by omega
          rw [analyzeHand, analyzeHand, if_neg h0, if_neg h0', if_neg hkb,
            if_neg hkb', if_pos hnor, if_pos hnor']
        · have hnor' : ¬ ((normalsOf cards').length = 0) := by omega
          have hnornil : normalsOf cards ≠ [] := by
            intro hnil
            rw [hnil] at hnor
            exact hnor rfl
          by_cases hlen2 : cards.length = 2
          · have hlen2' : cards'.length = 2 := by omega
            by_cases hpair : (uniqueRanksOf cards).length = 1 ∨
                ((jokersOf cards).length = 1 ∧ (normalsOf cards).length = 1)
            · have hpair' : (uniqueRanksOf cards').length = 1 ∨
                  ((jokersOf cards').length = 1 ∧ (normalsOf cards').length = 1) := by
                omega
              have huniq1 : ((normalsOf cards).map Card.rank).dedup.length = 1 := by
                rcases hpair with h | ⟨_, h⟩
                · exact h
                · obtain ⟨a, ha⟩ := List.length_eq_one.mp
                    (show ((normalsOf cards).map Card.rank).length = 1 by
                      rw [List.length_map]; exact h)
                  rw [ha]
                  rfl
              have hval := headD_rank_eq_of_uniform p_nor hnornil huniq1 undefinedCard
              rw [analyzeHand, analyzeHand, if_neg h0, if_neg h0', if_neg hkb,
                if_neg hkb', if_neg hnor, if_neg hnor', if_neg hone, if_neg hone',
                if_pos hlen2, if_pos hlen2', if_pos hpair, if_pos hpair', hval]
            · have hpair' : ¬ ((uniqueRanksOf cards').length = 1 ∨
                  ((jokersOf cards').length = 1 ∧ (normalsOf cards').length = 1)) := by
                omega
              rw [analyzeHand, analyzeHand, if_neg h0, if_neg h0', if_neg hkb,
                if_neg hkb', if_neg hnor, if_neg hnor', if_neg hone, if_neg hone',
                if_pos hlen2, if_pos hlen2', if_neg hpair, if_neg hpair']
          · have hlen2' : ¬ (cards'.length = 2) := by omega
            by_cases hbomb : (uniqueRanksOf cards).length = 1
            · have hbomb' : (uniqueRanksOf cards').length = 1 := by omega
              have hval := headD_rank_eq_of_uniform p_nor hnornil hbomb undefinedCard
              rw [analyzeHand, analyzeHand, if_neg h0, if_neg h0', if_neg hkb,
                if_neg hkb', if_neg hnor, if_neg hnor', if_neg hone, if_neg hone',
                if_neg hlen2, if_neg hlen2', if_pos hbomb, if_pos hbomb', hval,
                e_len]
            · have hbomb' : ¬ ((uniqueRanksOf cards').length = 1) := by omega
              rw [analyzeHand, analyzeHand, if_neg h0, if_neg h0', if_neg hkb,
                if_neg hkb', if_neg hnor, if_neg hnor', if_neg hone, if_neg hone',
                if_neg hlen2, if_neg hlen2', if_neg hbomb, if_neg hbomb',
                e_interps, e_len]

/-- C9 witness: the triple-3 bomb classifies identically after reversal. -/
theorem analyzeHand_perm_witness :
    analyzeHand [⟨"a", .spades, 3, "3"⟩, ⟨"b", .hearts, 3, "3"⟩, ⟨"c", .clubs, 3, "3"⟩] none =
      analyzeHand [⟨"c", .clubs, 3, "3"⟩, ⟨"b", .hearts, 3, "3"⟩, ⟨"a", .spades, 3, "3"⟩] none ∧
    analyzeHand [⟨"a", .spades, 3, "3"⟩, ⟨"b", .hearts, 3, "3"⟩, ⟨"c", .clubs, 3, "3"⟩] none =
      some ⟨.BOMB, 3, 3, 1⟩ := by
  constructor
  · exact analyzeHand_perm _ _ none (by
      have : [Card.mk "a" .spades 3 "3", Card.mk "b" .hearts 3 "3", Card.mk "c" .clubs 3 "3"].Perm
          [Card.mk "c" .clubs 3 "3", Card.mk "b" .hearts 3 "3", Card.mk "a" .spades 3 "3"] := by
        decide
      exact this)
  · decide

/-! ## Soundness of the step machine: invariants, conservation, no draw -/

theorem updateAtInt_natCast (n : Nat) (g : α → α) (l : List α) :
    updateAtInt (n : Int) g l = updateAt n g l := by
  rw [updateAtInt, if_neg (by omega : ¬ ((n : Int) < 0))]
  rfl

/-- Arbitrary default used only as the `getD` fallback in sum lemmas. -/
def anyPlayer : Player := ⟨0, "", false, [], 0, false, none, .bot, "", none⟩

/-- The mutation the acting player's record undergoes in `playHand`. -/
def playedPlayer (cards : List Card) (p0 : Player) : Player :=
  { p0 with
    hand := p0.hand.filter (fun c => !((cards.map Card.id).contains c.id))
    cardsLeft := (p0.hand.filter (fun c => !((cards.map Card.id).contains c.id))).length
    hasPlayed := true
    lastAction := some .PLAY }

/-- The `PlayedHand` appended to the pile by `playHand`. -/
def mkPlayedHand (cards : List Card) (analysis : Analysis) (playerIndex : Nat) :
    PlayedHand :=
  { playerId := playerIndex, cards := cards, type := analysis.type,
    primaryRank := analysis.primaryRank, length := analysis.length,
    bombLevel := analysis.bombLevel }

/-- The bomb-count bump of `playHand`. -/
def bumpBombCount (analysis : Analysis) (bombCount : Nat) : Nat :=
  bombCount +
    (if analysis.type = HandType.BOMB ∨ analysis.type = HandType.KING_BOMB then
      (if analysis.type = HandType.KING_BOMB then 1 else max 1 analysis.bombLevel)
     else 0)

theorem playHand_eq_nonwin (cards : List Card) (analysis : Analysis)
    (s : GameState) (p0 : Player)
    (hget : s.players[s.currentPlayerIndex]? = some p0)
    (hne : ¬ ((playedPlayer cards p0).cardsLeft = 0)) :
    playHand cards analysis s =
      { s with
          players := updateAt s.currentPlayerIndex
            (fun _ => playedPlayer cards p0) s.players
          tablePile := s.tablePile ++
            [mkPlayedHand cards analysis s.currentPlayerIndex]
          lastWinnerIndex := (s.currentPlayerIndex : Int)
          passesInARow := 0
          roundsFinishedAfterDeckEmpty := 0
          bombCount := bumpBombCount analysis s.bombCount
          currentPlayerIndex := (s.currentPlayerIndex + 1) %
            (updateAt s.currentPlayerIndex
              (fun _ => playedPlayer cards p0) s.players).length } := by
  simp only [playHand, hget]
  rw [if_neg (show ¬ ((p0.hand.filter
    (fun c => !((cards.map Card.id).contains c.id))).length = 0) from hne)]
  rfl

theorem playHand_eq_win (cards : List Card) (analysis : Analysis)
    (s : GameState) (p0 : Player)
    (hget : s.players[s.currentPlayerIndex]? = some p0)
    (heq : (playedPlayer cards p0).cardsLeft = 0) :
    playHand cards analysis s =
      { s with
          status := .celebrating
          players := updateAt s.currentPlayerIndex
            (fun _ => playedPlayer cards p0) s.players
          bombCount := bumpBombCount analysis s.bombCount
          lastWinnerIndex := (s.currentPlayerIndex : Int)
          tablePile := s.tablePile ++
            [mkPlayedHand cards analysis s.currentPlayerIndex] } := by
  simp only [playHand, hget]
  rw [if_pos (show (p0.hand.filter
    (fun c => !((cards.map Card.id).contains c.id))).length = 0 from heq)]
  rfl

/-- Source: `lastAction := PASS` set on the acting player (line 2601). -/
def passMark (s : GameState) : List Player :=
  updateAt s.currentPlayerIndex
    (fun p => { p with lastAction := some PAction.PASS }) s.players

/-- Source: `lastAction = null` cleared on everyone at round resolution (line 2609). -/
def clearActions (l : List Player) : List Player :=
  l.map (fun p => { p with lastAction := none })

/-- The round winner's draw of one card (lines 2613-2616). -/
def drawCard (drawn : Card) (p : Player) : Player :=
  { p with
    hand := sortCards (p.hand ++ [drawn]),
    cardsLeft := (sortCards (p.hand ++ [drawn])).length }

theorem nextTurn_eq_nonres (s : GameState)
    (hres : ¬ (s.players.length - 1 ≤ s.passesInARow + 1)) :
    nextTurn true s =
      ({ s with
          players := passMark s
          currentPlayerIndex := (s.currentPlayerIndex + 1) % s.players.length
          passesInARow := s.passesInARow + 1 }, false) := by
  simp only [nextTurn, if_true]
  rw [if_neg hres]
  rfl

theorem nextTurn_eq_res_deal (s : GameState) (lp : PlayedHand) (drawn : Card)
    (rest : List Card)
    (hlp : s.tablePile.getLast? = some lp)
    (hdeck : s.deck = drawn :: rest)
    (hres : s.players.length - 1 ≤ s.passesInARow + 1)
    (hcnt : ¬ (2 ≤ s.roundsFinishedAfterDeckEmpty)) :
    nextTurn true s =
      ({ s with
          deck := rest
          players := updateAt lp.playerId (drawCard drawn)
            (clearActions (passMark s))
          currentPlayerIndex := lp.playerId
          lastWinnerIndex := (lp.playerId : Int)
          passesInARow := 0
          roundsFinishedAfterDeckEmpty := s.roundsFinishedAfterDeckEmpty
          tablePile := [] }, false) := by
  simp only [nextTurn, if_true, hlp, hdeck, updateAtInt_natCast]
  rw [if_pos hres, if_neg hcnt]
  rfl

theorem nextTurn_eq_res_empty (s : GameState) (lp : PlayedHand)
    (hlp : s.tablePile.getLast? = some lp)
    (hdeck : s.deck = [])
    (hres : s.players.length - 1 ≤ s.passesInARow + 1)
    (hcnt : ¬ (2 ≤ s.roundsFinishedAfterDeckEmpty + 1)) :
    nextTurn true s =
      ({ s with
          players := clearActions (passMark s)
          currentPlayerIndex := lp.playerId
          lastWinnerIndex := (lp.playerId : Int)
          passesInARow := 0
          roundsFinishedAfterDeckEmpty := s.roundsFinishedAfterDeckEmpty + 1
          tablePile := [] }, false) := by
  simp only [nextTurn, if_true, hlp, hdeck, updateAtInt_natCast]
  rw [if_pos hres, if_neg hcnt]
  rfl

theorem length_passMark (s : GameState) :
    (passMark s).length = s.players.length := length_updateAt _ _ _

theorem length_clearActions (l : List Player) :
    (clearActions l).length = l.length := List.length_map _ _

theorem cardsLeftEq_passMark (s : GameState)
    (h : ∀ p ∈ s.players, p.cardsLeft = p.hand.length) :
    ∀ p ∈ passMark s, p.cardsLeft = p.hand.length :=
  forall_mem_updateAt _ _ h (fun a ha => h a ha)

theorem cardsLeftEq_clearActions (l : List Player)
    (h : ∀ p ∈ l, p.cardsLeft = p.hand.length) :
    ∀ p ∈ clearActions l, p.cardsLeft = p.hand.length := by
  intro q hq
  rcases List.mem_map.mp hq with ⟨q1, hq1, rfl⟩
  exact h q1 hq1

theorem sum_hand_passMark (s : GameState) :
    ((passMark s).map (fun p : Player => p.hand.length)).sum =
      (s.players.map (fun p : Player => p.hand.length)).sum :=
  sum_map_updateAt_of_comp _ _ _ _ (fun a => rfl)

theorem sum_hand_clearActions (l : List Player) :
    ((clearActions l).map (fun p : Player => p.hand.length)).sum =
      (l.map (fun p : Player => p.hand.length)).sum := by
  rw [clearActions, List.map_map]
  exact congrArg List.sum (List.map_congr_left (fun a _ => rfl))

/-- One legal step preserves `Inv`, never schedules the draw, and removes
from `deck + hands` exactly the cards taken out of the acting player's
hand. -/
theorem step_sound (s : GameState) (st : Step) (hInv : Inv s)
    (hL : LegalStep s st) :
    Inv (applyStep s st).1 ∧ (applyStep s st).2 = false ∧
      handTotal (applyStep s st).1 + removedBy s st = handTotal s := by
  cases hL with
  | @play cards analysis hs =>
      have hcur := hInv.curLt
      have hpos := hInv.posPlayers
      have hget : s.players[s.currentPlayerIndex]? =
          some (s.players.get ⟨s.currentPlayerIndex, hcur⟩) := by
        rw [List.getElem?_eq_getElem hcur, List.get_eq_getElem]
      set p0 := s.players.get ⟨s.currentPlayerIndex, hcur⟩ with hp0
      have hgetD : s.players.getD s.currentPlayerIndex anyPlayer = p0 := by
        rw [List.getD_eq_getElem?_getD, hget]
        rfl
      have hsplit := length_filter_split
        (fun c => (cards.map Card.id).contains c.id) p0.hand
      have hsum0 := sum_map_updateAt (fun p : Player => p.hand.length)
        (fun _ => playedPlayer cards p0) s.currentPlayerIndex s.players
        anyPlayer hcur
      rw [hgetD] at hsum0
      have hsum : ((updateAt s.currentPlayerIndex
            (fun _ => playedPlayer cards p0) s.players).map
              (fun p : Player => p.hand.length)).sum + p0.hand.length =
          (s.players.map (fun p : Player => p.hand.length)).sum +
            (playedPlayer cards p0).hand.length := hsum0
      have hplayed_len : (playedPlayer cards p0).hand.length =
          (p0.hand.filter (fun c => !((cards.map Card.id).contains c.id))).length :=
        rfl
      have hPL : (playedPlayer cards p0).cardsLeft =
          (playedPlayer cards p0).hand.length := rfl
      rw [hplayed_len] at hsum
      have hrem : removedBy s (.play cards analysis) =
          (p0.hand.filter (fun c => (cards.map Card.id).contains c.id)).length := by
        simp only [removedBy, hget]
      have hInvNew : ∀ q ∈ updateAt s.currentPlayerIndex
          (fun _ => playedPlayer cards p0) s.players,
          q.cardsLeft = q.hand.length :=
        forall_mem_updateAt _ _ hInv.cardsLeftEq (fun a _ => rfl)
      have hpiles : ∀ ph ∈ s.tablePile ++
          [mkPlayedHand cards analysis s.currentPlayerIndex],
          ph.playerId < s.players.length := by
        intro ph hph
        rcases List.mem_append.mp hph with hph | hph
        · exact hInv.pileIds ph hph
        · simp only [List.mem_singleton] at hph
          subst hph
          exact hcur
      by_cases h0 : (playedPlayer cards p0).cardsLeft = 0
      · have heq := playHand_eq_win cards analysis s p0 hget h0
        refine ⟨?_, rfl, ?_⟩
        · rw [show (applyStep s (.play cards analysis)).1 =
              playHand cards analysis s from rfl, heq]
          refine ⟨?_, ?_, ?_, ?_, ?_, ?_, ?_⟩ <;>
            simp only [length_updateAt]
          · exact hpos
          · exact hcur
          · omega
          · exact_mod_cast hcur
          · exact hpiles
          · intro hstat
            simp at hstat
          · exact hInvNew
        · rw [show (applyStep s (.play cards analysis)).1 =
              playHand cards analysis s from rfl, heq, hrem]
          simp only [handTotal]
          omega
      · have heq := playHand_eq_nonwin cards analysis s p0 hget h0
        refine ⟨?_, rfl, ?_⟩
        · rw [show (applyStep s (.play cards analysis)).1 =
              playHand cards analysis s from rfl, heq]
          refine ⟨?_, ?_, ?_, ?_, ?_, ?_, ?_⟩ <;>
            simp only [length_updateAt]
          · exact hpos
          · exact Nat.mod_lt _ (by omega)
          · omega
          · exact_mod_cast hcur
          · exact hpiles
          · intro _ _
            trivial
          · exact hInvNew
        · rw [show (applyStep s (.play cards analysis)).1 =
              playHand cards analysis s from rfl, heq, hrem]
          simp only [handTotal]
          omega
  | @pass hs hpile =>
      have hcur := hInv.curLt
      have hpos := hInv.posPlayers
      obtain ⟨lp, hlp⟩ : ∃ lp, s.tablePile.getLast? = some lp := by
        cases htp : s.tablePile.getLast? with
        | none =>
            rw [List.getLast?_eq_none_iff] at htp
            exact absurd htp hpile
        | some lp => exact ⟨lp, rfl⟩
      have hwin_mem : lp ∈ s.tablePile := List.mem_of_mem_getLast? (by simp [hlp])
      have hwin_lt : lp.playerId < s.players.length := hInv.pileIds lp hwin_mem
      have hcnt0 : s.roundsFinishedAfterDeckEmpty = 0 := hInv.counterZero hs hpile
      have happly : applyStep s .pass = nextTurn true s := rfl
      by_cases hres : s.players.length - 1 ≤ s.passesInARow + 1
      · cases hdeck : s.deck with
        | nil =>
            have heq := nextTurn_eq_res_empty s lp hlp hdeck hres (by omega)
            rw [happly, heq]
            refine ⟨⟨?_, ?_, ?_, ?_, ?_, ?_, ?_⟩, rfl, ?_⟩ <;>
              simp only [length_clearActions, length_passMark]
            · exact hpos
            · exact hwin_lt
            · omega
            · exact_mod_cast hwin_lt
            · intro ph hph
              simp at hph
            · intro _ hne
              exact absurd rfl hne
            · exact cardsLeftEq_clearActions _ (cardsLeftEq_passMark s hInv.cardsLeftEq)
            · simp only [removedBy, handTotal, hdeck, sum_hand_clearActions,
                sum_hand_passMark]
              omega
        | cons drawn rest =>
            have heq := nextTurn_eq_res_deal s lp drawn rest hlp hdeck hres (by omega)
            rw [happly, heq]
            have hwin_lt2 : lp.playerId < (clearActions (passMark s)).length := by
              rw [length_clearActions, length_passMark]
              exact hwin_lt
            have hdraw_sum0 := sum_map_updateAt (fun p : Player => p.hand.length)
              (drawCard drawn) lp.playerId (clearActions (passMark s))
              anyPlayer hwin_lt2
            have hdraw_len : ∀ p : Player,
                (drawCard drawn p).hand.length = p.hand.length + 1 := by
              intro p
              show (sortCards (p.hand ++ [drawn])).length = p.hand.length + 1
              rw [sortCards_length, List.length_append]
              rfl
            have hdraw_sum : ((updateAt lp.playerId (drawCard drawn)
                  (clearActions (passMark s))).map
                    (fun p : Player => p.hand.length)).sum +
                ((clearActions (passMark s)).getD lp.playerId anyPlayer).hand.length =
                ((clearActions (passMark s)).map
                  (fun p : Player => p.hand.length)).sum +
                (drawCard drawn
                  ((clearActions (passMark s)).getD lp.playerId anyPlayer)).hand.length :=
              hdraw_sum0
            rw [hdraw_len] at hdraw_sum
            refine ⟨⟨?_, ?_, ?_, ?_, ?_, ?_, ?_⟩, rfl, ?_⟩ <;>
              simp only [length_updateAt, length_clearActions, length_passMark]
            · exact hpos
            · exact hwin_lt
            · omega
            · exact_mod_cast hwin_lt
            · intro ph hph
              simp at hph
            · intro _ hne
              exact absurd rfl hne
            · exact forall_mem_updateAt _ _
                (cardsLeftEq_clearActions _ (cardsLeftEq_passMark s hInv.cardsLeftEq))
                (fun a _ => rfl)
            · simp only [removedBy, handTotal, hdeck]
              rw [sum_hand_clearActions, sum_hand_passMark] at hdraw_sum
              simp only [List.length_cons]
              omega
      · have heq := nextTurn_eq_nonres s hres
        rw [happly, heq]
        refine ⟨⟨?_, ?_, ?_, ?_, ?_, ?_, ?_⟩, rfl, ?_⟩ <;>
          simp only [length_passMark]
        · exact hpos
        · exact Nat.mod_lt _ (by omega)
        · exact hInv.lastWinnerNonneg
        · exact hInv.lastWinnerLt
        · exact hInv.pileIds
        · intro _ _
          exact hcnt0
        · exact cardsLeftEq_passMark s hInv.cardsLeftEq
        · simp only [removedBy, handTotal, sum_hand_passMark]
          omega

/-- Trace-level soundness: along any legal trace the invariants hold, the
draw is never scheduled, and `deck + hands` drops by exactly the removed
cards. -/
theorem trace_sound : ∀ (steps : List Step) (s : GameState), Inv s →
    LegalTrace s steps →
    Inv (runSteps s steps) ∧ drawTriggeredAlong s steps = false ∧
      handTotal (runSteps s steps) + removedAlong s steps = handTotal s := by
  intro steps
  induction steps with
  | nil =>
      intro s hInv hT
      exact ⟨hInv, rfl, rfl⟩
  | cons st rest ih =>
      intro s hInv hT
      cases hT with
      | cons hL hT' =>
          have hstep := step_sound s st hInv hL
          have hrec := ih (applyStep s st).1 hstep.1 hT'
          refine ⟨hrec.1, ?_, ?_⟩
          · rw [drawTriggeredAlong, hstep.2.1, hrec.2.1]
            rfl
          · have h1 := hrec.2.2
            have h2 := hstep.2.2
            rw [runSteps, removedAlong]
            omega

/-! ## Dealing establishes the invariants -/

theorem dealHands_length (dealerIdx : Nat) :
    ∀ (players : List Player) (idx : Nat) (deck : List Card),
      (dealHands dealerIdx players idx deck).1.length = players.length := by
  intro players
  induction players with
  | nil => intro idx deck; rfl
  | cons p rest ih =>
      intro idx deck
      simp [dealHands, ih]

theorem dealHands_cardsLeft (dealerIdx : Nat) :
    ∀ (players : List Player) (idx : Nat) (deck : List Card),
      ∀ p ∈ (dealHands dealerIdx players idx deck).1,
        p.cardsLeft = p.hand.length := by
  intro players
  induction players with
  | nil => intro idx deck p hp; simp [dealHands] at hp
  | cons q rest ih =>
      intro idx deck p hp
      rw [dealHands] at hp
      rcases List.mem_cons.mp hp with hp | hp
      · subst hp; rfl
      · exact ih (idx + 1) _ p hp

theorem dealHands_conserve (dealerIdx : Nat) :
    ∀ (players : List Player) (idx : Nat) (deck : List Card),
      ((dealHands dealerIdx players idx deck).1.map
        (fun p : Player => p.hand.length)).sum +
        (dealHands dealerIdx players idx deck).2.length = deck.length := by
  intro players
  induction players with
  | nil => intro idx deck; simp [dealHands]
  | cons p rest ih =>
      intro idx deck
      have hrec := ih (idx + 1) (deck.drop (if idx = dealerIdx then 6 else 5))
      rw [dealHands]
      simp only [List.map_cons, List.sum_cons]
      rw [sortCards_length, List.length_take]
      rw [List.length_drop] at hrec
      omega

theorem Inv_dealAndPlay (players : List Player) (deck : List Card)
    (dealerIdx : Nat) (scores : Nat → Int) (hist : List (Nat → Int))
    (h1 : 0 < players.length) (h2 : dealerIdx < players.length) :
    Inv (dealAndPlay players deck dealerIdx scores hist) := by
  refine ⟨?_, ?_, ?_, ?_, ?_, ?_, ?_⟩ <;>
    simp only [dealAndPlay, dealHands_length]
  · exact h1
  · exact h2
  · omega
  · exact_mod_cast h2
  · intro ph hph
    simp at hph
  · intro _ _
    trivial
  · exact dealHands_cardsLeft dealerIdx players 0 deck

theorem handTotal_dealAndPlay (players : List Player) (deck : List Card)
    (dealerIdx : Nat) (scores : Nat → Int) (hist : List (Nat → Int)) :
    handTotal (dealAndPlay players deck dealerIdx scores hist) = deck.length := by
  simp only [handTotal, dealAndPlay]
  rw [Nat.add_comm]
  exact dealHands_conserve dealerIdx players 0 deck

/-! ## C1: the stalemate/draw can never fire through legal play -/

/-- C1: contrary to the claim, along EVERY legal trace from a freshly dealt
hand — pass only with a non-empty table pile, as `handleUserPass` and the AI
enforce — the `handleDraw` schedule of `nextTurn` (line 2630) never fires:
every play resets `roundsFinishedAfterDeckEmpty` to 0 (line 2696), and after
a round resolution the winner owns an empty pile and must play, so the
counter never exceeds 1 and the `>= 2` draw test is unreachable. -/
theorem stalemate_draw_never_fires (players : List Player) (deck : List Card)
    (dealerIdx : Nat) (scores : Nat → Int) (hist : List (Nat → Int))
    (steps : List Step)
    (h1 : 0 < players.length) (h2 : dealerIdx < players.length)
    (hT : LegalTrace (dealAndPlay players deck dealerIdx scores hist) steps) :
    drawTriggeredAlong (dealAndPlay players deck dealerIdx scores hist) steps =
      false :=
  (trace_sound steps _ (Inv_dealAndPlay players deck dealerIdx scores hist h1 h2)
    hT).2.1

/-- An 11-card deck: with two players (6 + 5 dealt) the draw pile is empty
from the very first turn, so every round resolution is an empty-deck round
ending. -/
def drawlessDeck : List Card :=
  [⟨"d0", .spades, 3, "3"⟩, ⟨"d1", .spades, 4, "4"⟩, ⟨"d2", .spades, 5, "5"⟩,
   ⟨"d3", .spades, 6, "6"⟩, ⟨"d4", .spades, 7, "7"⟩, ⟨"d5", .spades, 8, "8"⟩,
   ⟨"d6", .hearts, 9, "9"⟩, ⟨"d7", .hearts, 10, "10"⟩, ⟨"d8", .hearts, 11, "J"⟩,
   ⟨"d9", .hearts, 12, "Q"⟩, ⟨"d10", .hearts, 13, "K"⟩]

def demoPlayers : List Player :=
  [⟨0, "p0", false, [], 0, false, none, .host, "", none⟩,
   ⟨1, "p1", true, [], 0, false, none, .bot, "", none⟩]

def demoDealt : GameState :=
  dealAndPlay demoPlayers drawlessDeck 0 (fun _ => 0) []

/-- Two legal-play rounds that both end with the deck empty: player 0 plays,
player 1 passes (round resolves, empty deck), player 0 plays again, player 1
passes again (second empty-deck round ending). -/
def demoSteps : List Step :=
  [.play [⟨"d0", .spades, 3, "3"⟩] ⟨.SINGLE, 3, 1, 0⟩,
   .pass,
   .play [⟨"d1", .spades, 4, "4"⟩] ⟨.SINGLE, 4, 1, 0⟩,
   .pass]

/-- C1 witness: on the concrete two-player game whose deck is exhausted at
the deal, two consecutive empty-deck round endings (with the mandatory
winner plays in between) leave `roundsFinishedAfterDeckEmpty` at 1 — the
counter the play reset keeps knocking back — and the draw never fires,
although the claim says this very scenario forces the stalemate redeal. -/
theorem stalemate_draw_never_fires_witness :
    drawTriggeredAlong demoDealt demoSteps = false ∧
      (runSteps demoDealt demoSteps).roundsFinishedAfterDeckEmpty = 1 ∧
      (runSteps demoDealt demoSteps).status = Status.playing := by
  refine ⟨?_, by decide, by decide⟩
  exact stalemate_draw_never_fires demoPlayers drawlessDeck 0 (fun _ => 0) []
    demoSteps (by decide) (by decide)
    (.cons (.play (by decide))
      (.cons (.pass (by decide) (by decide))
        (.cons (.play (by decide))
          (.cons (.pass (by decide) (by decide)) .nil))))

/-! ## C2: the 54-card conservation claim -/

def c2Players : List Player :=
  [⟨0, "you", false, [], 0, false, none, .host, "", none⟩,
   ⟨1, "bot1", true, [], 0, false, none, .bot, "", none⟩]

def c2Dealt : GameState :=
  dealAndPlay c2Players generateDeck 0 (fun _ => 0) []

/-- The dealer's lowest card after the deal of the full 54-card deck: the
3 of spades, id `c-0`. -/
def c2FirstCard : Card := ⟨"c-0", .spades, 3, "3"⟩

def c2Step : Step := .play [c2FirstCard] ⟨.SINGLE, 3, 1, 0⟩

/-- C2 counterexample: immediately after the deal the claimed invariant
`deck.length + Σ cardsLeft = 54` holds, but one legal play later — player 0
leading their 3♠ onto the table pile — the state is still `playing` and the
quantity is 53: played cards sit in `tablePile`, not in deck or hands, so
the claimed invariant is false in every reachable state after the first
play. -/
theorem leftTotal_breaks_after_first_play :
    LegalTrace c2Dealt [c2Step] ∧
      c2FirstCard ∈ (c2Dealt.players.getD 0 anyPlayer).hand ∧
      analyzeHand [c2FirstCard] none = some ⟨.SINGLE, 3, 1, 0⟩ ∧
      leftTotal c2Dealt = 54 ∧
      (runSteps c2Dealt [c2Step]).status = Status.playing ∧
      leftTotal (runSteps c2Dealt [c2Step]) = 53 :=
  ⟨.cons (.play (by decide)) .nil, by decide, by decide, by decide, by decide,
    by decide⟩

/-- C2 amended: after dealing a 54-card deck, at every point of every legal
trace `deck.length + Σ cardsLeft` equals 54 minus the number of cards that
plays have removed from hands (those cards move to the table pile, whose
contents are discarded at round resolution); the winner's draw at round
resolution conserves the quantity. -/
theorem leftTotal_conservation (players : List Player) (deck : List Card)
    (dealerIdx : Nat) (scores : Nat → Int) (hist : List (Nat → Int))
    (steps : List Step)
    (h1 : 0 < players.length) (h2 : dealerIdx < players.length)
    (h54 : deck.length = 54)
    (hT : LegalTrace (dealAndPlay players deck dealerIdx scores hist) steps) :
    leftTotal (runSteps (dealAndPlay players deck dealerIdx scores hist) steps)
      + removedAlong (dealAndPlay players deck dealerIdx scores hist) steps =
      54 := by
  have hInv := Inv_dealAndPlay players deck dealerIdx scores hist h1 h2
  have h := trace_sound steps _ hInv hT
  have hleft : leftTotal (runSteps (dealAndPlay players deck dealerIdx scores hist) steps) =
      handTotal (runSteps (dealAndPlay players deck dealerIdx scores hist) steps) := by
    rw [leftTotal, handTotal]
    congr 1
    exact congrArg List.sum (List.map_congr_left h.1.cardsLeftEq)
  have hdeal := handTotal_dealAndPlay players deck dealerIdx scores hist
  have hcons := h.2.2
  omega

/-- C2 amended witness: on the concrete dealt 54-card game, after the one
play of the counterexample the conserved quantity is 53 + 1 = 54. -/
theorem leftTotal_conservation_witness :
    leftTotal (runSteps c2Dealt [c2Step]) +
      removedAlong c2Dealt [c2Step] = 54 :=
  leftTotal_conservation c2Players generateDeck 0 (fun _ => 0) [] [c2Step]
    (by decide) (by decide) (by decide)
    (.cons (.play (by decide)) .nil)

/-! ## C10: cardsLeft is always the hand length -/

/-- C10: in every state reachable by legal steps from a fresh deal, every
player's `cardsLeft` equals `hand.length`: dealing, playing (including the
win path through `handleWin`) and the round-winner's draw all recompute
`cardsLeft` from the new hand. -/
theorem cardsLeft_matches_hand (players : List Player) (deck : List Card)
    (dealerIdx : Nat) (scores : Nat → Int) (hist : List (Nat → Int))
    (steps : List Step)
    (h1 : 0 < players.length) (h2 : dealerIdx < players.length)
    (hT : LegalTrace (dealAndPlay players deck dealerIdx scores hist) steps) :
    ∀ p ∈ (runSteps (dealAndPlay players deck dealerIdx scores hist) steps).players,
      p.cardsLeft = p.hand.length :=
  (trace_sound steps _ (Inv_dealAndPlay players deck dealerIdx scores hist h1 h2)
    hT).1.cardsLeftEq

/-- C10 witness: the acting player of the C1 demo trace, after two plays and
one card-draw-free resolution, still satisfies `cardsLeft = hand.length`. -/
theorem cardsLeft_matches_hand_witness :
    ((runSteps demoDealt demoSteps).players.getD 0 anyPlayer).cardsLeft =
      ((runSteps demoDealt demoSteps).players.getD 0 anyPlayer).hand.length := by
  have h := cardsLeft_matches_hand demoPlayers drawlessDeck 0 (fun _ => 0) []
    demoSteps (by decide) (by decide)
    (.cons (.play (by decide))
      (.cons (.pass (by decide) (by decide))
        (.cons (.play (by decide))
          (.cons (.pass (by decide) (by decide)) .nil))))
  exact h _ (by decide)

/-! ## C4: the empty-table pass guard -/

def c4State : GameState :=
  { status := .playing
    players := [⟨0, "p0", false, [⟨"x0", .spades, 5, "5"⟩], 1, false, none, .host, "", none⟩,
                ⟨1, "p1", false, [⟨"x1", .spades, 6, "6"⟩], 1, false, none, .guest, "", some "peer1"⟩,
                ⟨2, "p2", true, [⟨"x2", .spades, 7, "7"⟩], 1, false, none, .bot, "", none⟩]
    deck := [⟨"x3", .spades, 8, "8"⟩]
    tablePile := []
    currentPlayerIndex := 0
    lastWinnerIndex := 0
    dealerId := 0
    passesInARow := 0
    roundsFinishedAfterDeckEmpty := 0
    bombCount := 0
    scores := fun _ => 0
    gameHistory := [] }

/-- C4 counterexample: `c4State` has an empty table pile, yet the host's
handler for a guest `ACTION_PASS` (which calls `nextTurn(true)` with no
empty-table check, lines 2208-2210) mutates the state: `passesInARow` grows
from 0 to 1.  The claim that an empty-table PASS is rejected unchanged "on
every acting path including a guest's ACTION_PASS message applied by the
host" is therefore false. -/
theorem actionPass_mutates_on_empty_pile :
    c4State.tablePile = [] ∧ c4State.passesInARow = 0 ∧
      (applyActionPass c4State).1.passesInARow = 1 := by
  refine ⟨rfl, rfl, ?_⟩
  decide

/-- C4 amended: the empty-table rejection lives only in `handleUserPass`
(the local entry point, on host and guest alike), which leaves the state
unchanged; the host applies an inbound guest `ACTION_PASS` unconditionally
via `nextTurn(true)`; and an accepted pass increments `passesInARow` by
exactly one whenever the new count stays below `players.length - 1`
(reaching that threshold instead resolves the round and resets the counter
to 0). -/
theorem pass_guard_amended :
    (∀ s : GameState, s.tablePile = [] → handleUserPassHost s = (s, false))
    ∧ (∀ s : GameState, s.tablePile ≠ [] →
        s.passesInARow + 1 < s.players.length - 1 →
        (handleUserPassHost s).1.passesInARow = s.passesInARow + 1)
    ∧ (∀ s : GameState, applyActionPass s = nextTurn true s) := by
  refine ⟨?_, ?_, fun s => rfl⟩
  · intro s hpile
    rw [handleUserPassHost, if_pos (by rw [hpile]; rfl)]
  · intro s hpile hlt
    rw [handleUserPassHost,
      if_neg (by simpa [List.length_eq_zero] using hpile)]
    rw [nextTurn_eq_nonres s (by omega)]

/-- C4 amended witness: the guard rejects on an empty pile and a pass on the
concrete one-entry pile increments the counter by one. -/
theorem pass_guard_amended_witness :
    handleUserPassHost c4State = (c4State, false) ∧
      (handleUserPassHost { c4State with
        tablePile := [⟨1, [⟨"x9", .spades, 9, "9"⟩], .SINGLE, 9, 1, 0⟩] }).1.passesInARow = 1 := by
  constructor
  · exact pass_guard_amended.1 c4State rfl
  · exact pass_guard_amended.2.1 _ (by decide) (by decide)

/-! ## C3: the AI can return a locally illegal move -/

def c3Hand : List Card :=
  [⟨"k", .spades, 13, "K"⟩, ⟨"a", .spades, 14, "A"⟩, ⟨"two", .spades, 15, "2"⟩]

/-- The table hand Q-K-A: a STRAIGHT with `primaryRank = 12`, `length = 3`. -/
def c3Last : PlayedHand :=
  ⟨1, [⟨"q1", .hearts, 12, "Q"⟩, ⟨"k1", .hearts, 13, "K"⟩, ⟨"a1", .hearts, 14, "A"⟩],
   .STRAIGHT, 12, 3, 0⟩

/-- C3: holding K-A-2 against the Q-K-A straight, `findStraight` treats the
rank-15 card "2" as consecutive and returns it as a length-3 "straight", but
`analyzeHand` rejects any straight containing rank 15 outside the two wrap
runs, so `calculateAiMove` hands back a move whose `analysis` is `null` —
violating the claimed local legality (and crashing `playHand` at
`analysis.type`). -/
theorem aiMove_returns_unclassifiable_straight :
    calculateAiMove c3Hand (some c3Last) = some ⟨c3Hand, none⟩ ∧
      analyzeHand c3Hand (some 13) = none := by
  constructor
  · decide
  · decide

end Gandy